import Mathlib

/-!
Shallow embedding of `calculations.py` (portfolio calculations for a
Binance dashboard).  Python floats are modelled by exact rationals (ℚ);
Python dicts by insertion-ordered association lists; a raised exception
by `Option.none`.  Each definition mirrors one Python function.
-/

/-- Python `str.upper()` (per-character, ASCII). -/
def pyUpper (s : String) : String := ⟨s.data.map Char.toUpper⟩

/-- Python `s.endswith(q)`: `q == s[len(s)-len(q):]`. -/
def endsW (s q : String) : Bool := s.data.drop (s.data.length - q.data.length) == q.data

/-- Python `s.startswith(p)`: `p == s[:len(p)]`. -/
def startsW (s p : String) : Bool := s.data.take p.data.length == p.data

/-- Python `s[:-n]` for `n > 0` (the only way the source uses it). -/
def dropR (s : String) (n : Nat) : String := ⟨s.data.take (s.data.length - n)⟩

/-- Python `d.get(k)` on an insertion-ordered dict modelled as an assoc list. -/
def pyGet {α : Type} : List (String × α) → String → Option α
  | [], _ => none
  | (k, v) :: rest, key => if k = key then some v else pyGet rest key

/-- Python `d.get(k, dflt)`. -/
def pyGetD {α : Type} (d : List (String × α)) (key : String) (dflt : α) : α :=
  match pyGet d key with
  | some v => v
  | none => dflt

/-- Python `d[k] = v`: update in place if the key exists, else append. -/
def setKey {α : Type} : List (String × α) → String → α → List (String × α)
  | [], k, v => [(k, v)]
  | (k', v') :: rest, k, v =>
      if k' = k then (k, v) :: rest else (k', v') :: setKey rest k v

/-- Embeds `QUOTE_ASSETS` from `calculations.py`. -/
def QUOTE_ASSETS : List String :=
  ["USDT", "BUSD", "FDUSD", "TUSD", "USDC", "BTC", "BNB", "ETH", "TRY", "EUR"]

/-- The loop body of `split_symbol`: first quote suffix in list order wins. -/
def splitLoop (s : String) : List String → Option (String × String)
  | [] => none
  | q :: rest => if endsW s q then some (dropR s q.data.length, q) else splitLoop s rest

/-- Models `split_symbol(symbol)`; the `raise ValueError(...)` branch is `none`. -/
def split_symbol (symbol : String) : Option (String × String) :=
  splitLoop (pyUpper symbol) QUOTE_ASSETS

/-- One balance record (a Python dict); absent keys are `none`
(`locked` defaults to 0 in the source via `entry.get("locked", 0)`). -/
structure BalanceEntry where
  asset : Option String
  quantity : Option ℚ
  free : Option ℚ
  amount : Option ℚ
  locked : ℚ
deriving DecidableEq, Repr

/-- Python truthiness chaining `x or k`: keep `x` when present and nonzero. -/
def truthyOr (o : Option ℚ) (k : ℚ) : ℚ :=
  match o with
  | none => k
  | some v => if v = 0 then k else v

/-- Computes `float(entry.get("quantity") or entry.get("free") or entry.get("amount") or 0)
    + float(entry.get("locked", 0))`. -/
def pyAmount (e : BalanceEntry) : ℚ :=
  truthyOr e.quantity (truthyOr e.free (truthyOr e.amount 0)) + e.locked

/-- Inner loop body of `aggregate_positions` (skips falsy asset codes). -/
def aggEntry (h : List (String × ℚ)) (e : BalanceEntry) : List (String × ℚ) :=
  match e.asset with
  | none => h
  | some a => if a = "" then h else setKey h a (pyGetD h a 0 + pyAmount e)

/-- Models `aggregate_positions(*sources)`. -/
def aggregate_positions (sources : List (List BalanceEntry)) : List (String × ℚ) :=
  (sources.foldl (fun h src => src.foldl aggEntry h) []).filter (fun p => decide (0 < p.2))

/-- One trade fill (a Python dict with the Trade Record fields). -/
structure Trade where
  qty : ℚ
  price : ℚ
  time : Int
  isBuyer : Bool
  commission : ℚ
  commissionAsset : String
deriving DecidableEq, Repr

/-- The mutable replay state of `compute_symbol_trade_stats`. -/
structure ReplayState where
  position_qty : ℚ
  position_cost : ℚ
  realized_pnl : ℚ
deriving DecidableEq, Repr

/-- Models `position_qty = 0.0; position_cost = 0.0; realized_pnl = 0.0`. -/
def initState : ReplayState := ⟨0, 0, 0⟩

/-- The loop body of `compute_symbol_trade_stats` for one trade. -/
def applyTrade (base quote : String) (st : ReplayState) (t : Trade) : ReplayState :=
  let fee_quote := if t.commissionAsset = quote then t.commission else 0
  let fee_base := if t.commissionAsset = base then t.commission else 0
  if t.isBuyer then
    { st with
      position_qty := st.position_qty + (t.qty - fee_base)
      position_cost := st.position_cost + (t.qty * t.price + fee_quote) }
  else
    let sell_qty := min t.qty st.position_qty
    if sell_qty ≤ 0 then st
    else
      let avg_cost := if st.position_qty = 0 then 0 else st.position_cost / st.position_qty
      let proceeds := sell_qty * t.price - fee_quote
      { position_qty := st.position_qty - sell_qty
        position_cost := st.position_cost - avg_cost * sell_qty
        realized_pnl := st.realized_pnl + (proceeds - avg_cost * sell_qty) }

/-- Insert a trade after all already-placed trades of `time ≤` its own:
together with `sortTrades` this is Python's stable `sorted(..., key=time)`. -/
def insertLE (t : Trade) : List Trade → List Trade
  | [] => [t]
  | h :: rest => if h.time ≤ t.time then h :: insertLE t rest else t :: h :: rest

/-- Stable sort by `time` ascending (`sorted(trades, key=lambda t: t.get("time", 0))`). -/
def sortTrades (ts : List Trade) : List Trade :=
  ts.foldl (fun acc t => insertLE t acc) []

/-- The whole replay loop over the time-sorted trades. -/
def replayFold (base quote : String) (trades : List Trade) : ReplayState :=
  List.foldl (applyTrade base quote) initState (sortTrades trades)

/-- Models `compute_symbol_trade_stats(symbol, trades)`; a propagated
`ValueError` from `split_symbol` is `none`. -/
def compute_symbol_trade_stats (symbol : String) (trades : List Trade) :
    Option (ℚ × ℚ × ℚ) :=
  if trades.isEmpty then some (0, 0, 0)
  else
    match split_symbol symbol with
    | none => none
    | some (base, quote) =>
        let fin := replayFold base quote trades
        let average_price := if fin.position_qty = 0 then 0
                             else fin.position_cost / fin.position_qty
        some (average_price, fin.position_cost, fin.realized_pnl)

/-- The `SymbolPosition` dataclass. -/
structure SymbolPosition where
  asset : String
  quantity : ℚ
  average_buy_price : ℚ
  invested : ℚ
  current_price : ℚ
  current_value : ℚ
  unrealized_pnl : ℚ
  roi_pct : ℚ
  realized_pnl : ℚ
deriving DecidableEq, Repr

/-- The `PortfolioSummary` dataclass. -/
structure PortfolioSummary where
  total_invested : ℚ
  total_value : ℚ
  net_unrealized : ℚ
  realized_pnl : ℚ
deriving DecidableEq, Repr

/-- The row-construction block of `build_portfolio_rows` (lines 122-139):
the empty-history fallback, `current_value`, `unrealized`, `roi_pct`. -/
def mkRow (asset : String) (qty current_price average_price invested0 realized : ℚ) :
    SymbolPosition :=
  let invested := if invested0 = 0 ∧ average_price = 0 then qty * current_price else invested0
  let current_value := qty * current_price
  let unrealized := current_value - invested
  let roi_pct := if invested = 0 then 0 else unrealized / invested * 100
  { asset := asset
    quantity := qty
    average_buy_price := average_price
    invested := invested
    current_price := current_price
    current_value := current_value
    unrealized_pnl := unrealized
    roi_pct := roi_pct
    realized_pnl := realized }

/-- The fallback scan of `match_symbol`: first price-map key starting with the asset. -/
def scanKeys : List (String × ℚ) → String → Option String
  | [], _ => none
  | (sym, _) :: rest, asset => if startsW sym asset then some sym else scanKeys rest asset

/-- The `match_symbol` helper inside `build_portfolio_rows`. -/
def match_symbol (price_map : List (String × ℚ)) (quote_symbol asset : String) :
    Option String :=
  if (pyGet price_map (asset ++ quote_symbol)).isSome then some (asset ++ quote_symbol)
  else scanKeys price_map asset

/-- The main loop of `build_portfolio_rows`, carrying the rows and the three
running totals; `none` when a `ValueError` would propagate out of
`compute_symbol_trade_stats`. -/
def buildLoop (price_map : List (String × ℚ)) (trade_lookup : List (String × List Trade))
    (quote_symbol : String) :
    List (String × ℚ) → List SymbolPosition → ℚ → ℚ → ℚ →
    Option (List SymbolPosition × PortfolioSummary)
  | [], rows, ti, tv, rt =>
      some (rows, { total_invested := ti, total_value := tv
                    net_unrealized := tv - ti, realized_pnl := rt })
  | (asset, qty) :: rest, rows, ti, tv, rt =>
      match match_symbol price_map quote_symbol asset with
      | none => buildLoop price_map trade_lookup quote_symbol rest rows ti tv rt
      | some symbol =>
          let current_price := pyGetD price_map symbol 0
          match compute_symbol_trade_stats symbol (pyGetD trade_lookup symbol []) with
          | none => none
          | some (average_price, invested0, realized) =>
              let row := mkRow asset qty current_price average_price invested0 realized
              buildLoop price_map trade_lookup quote_symbol rest (rows ++ [row])
                (ti + row.invested) (tv + row.current_value) (rt + row.realized_pnl)

/-- Models `build_portfolio_rows(holdings, price_map, trade_lookup, quote_symbol)`. -/
def build_portfolio_rows (holdings : List (String × ℚ)) (price_map : List (String × ℚ))
    (trade_lookup : List (String × List Trade)) (quote_symbol : String := "USDT") :
    Option (List SymbolPosition × PortfolioSummary) :=
  buildLoop price_map trade_lookup quote_symbol holdings [] 0 0 0

/-- One strategy record (a dict with four optional threshold fields). -/
structure Strategy where
  low_buy_1 : Option ℚ
  low_buy_2 : Option ℚ
  high_sell_1 : Option ℚ
  high_sell_2 : Option ℚ
deriving DecidableEq, Repr

/-- An emitted alert, identified by its content (threshold kind, asset,
price, threshold); the exact f-string formatting is presentation only. -/
inductive AlertMsg where
  | lowBuy1 (asset : String) (price thr : ℚ)
  | lowBuy2 (asset : String) (price thr : ℚ)
  | highSell1 (asset : String) (price thr : ℚ)
  | highSell2 (asset : String) (price thr : ℚ)
deriving DecidableEq, Repr

/-- Models `if lb and price <= lb: alerts.append(...)` on the running list. -/
def appendIfLow (mk : String → ℚ → ℚ → AlertMsg) (asset : String) (price : ℚ)
    (o : Option ℚ) (acc : List AlertMsg) : List AlertMsg :=
  match o with
  | none => acc
  | some v => if v ≠ 0 ∧ price ≤ v then acc ++ [mk asset price v] else acc

/-- Models `if hs and price >= hs: alerts.append(...)` on the running list. -/
def appendIfHigh (mk : String → ℚ → ℚ → AlertMsg) (asset : String) (price : ℚ)
    (o : Option ℚ) (acc : List AlertMsg) : List AlertMsg :=
  match o with
  | none => acc
  | some v => if v ≠ 0 ∧ v ≤ price then acc ++ [mk asset price v] else acc

/-- The per-row body of `evaluate_alerts`: strategy lookup by uppercased
asset, then the four threshold checks in source order. -/
def evalRow (strategies : List (String × Strategy)) (acc : List AlertMsg)
    (row : SymbolPosition) : List AlertMsg :=
  match pyGet strategies (pyUpper row.asset) with
  | none => acc
  | some st =>
      appendIfHigh .highSell2 row.asset row.current_price st.high_sell_2
        (appendIfHigh .highSell1 row.asset row.current_price st.high_sell_1
          (appendIfLow .lowBuy2 row.asset row.current_price st.low_buy_2
            (appendIfLow .lowBuy1 row.asset row.current_price st.low_buy_1 acc)))

/-- Models `evaluate_alerts(rows, strategies)`. -/
def evaluate_alerts (rows : List SymbolPosition) (strategies : List (String × Strategy)) :
    List AlertMsg :=
  rows.foldl (evalRow strategies) []

/-- The messages one row contributes, as a standalone list in field order
(`low_buy_1, low_buy_2, high_sell_1, high_sell_2`); used to characterise
the order of `evaluate_alerts`. -/
def rowMsgs (strategies : List (String × Strategy)) (row : SymbolPosition) :
    List AlertMsg :=
  match pyGet strategies (pyUpper row.asset) with
  | none => []
  | some st =>
      appendIfLow .lowBuy1 row.asset row.current_price st.low_buy_1 []
        ++ appendIfLow .lowBuy2 row.asset row.current_price st.low_buy_2 []
        ++ appendIfHigh .highSell1 row.asset row.current_price st.high_sell_1 []
        ++ appendIfHigh .highSell2 row.asset row.current_price st.high_sell_2 []

/-! ## Helper lemmas -/

theorem splitLoop_eq_find (s : String) :
    ∀ l : List String,
      splitLoop s l = (l.find? (fun q => endsW s q)).map
        (fun q => (dropR s q.data.length, q))
  | [] => rfl
  | q :: rest => by
      cases h : endsW s q <;>
        simp [splitLoop, List.find?_cons, h, splitLoop_eq_find s rest]

/-! ## Claims -/

/-- Claim C1: replaying a buy of 2 at 100 and a later sell of 1 at 150
(zero commission) on a USDT-quoted symbol yields average price 100,
invested 100, realized P&L 50, and a position of 1 after the sell. -/
theorem claim_C1 :
    compute_symbol_trade_stats "ETHUSDT"
        [⟨2, 100, 1, true, 0, ""⟩, ⟨1, 150, 2, false, 0, ""⟩] = some (100, 100, 50)
    ∧ (replayFold "ETH" "USDT"
        [⟨2, 100, 1, true, 0, ""⟩, ⟨1, 150, 2, false, 0, ""⟩]).position_qty = 1 := by
  have h1 : split_symbol "ETHUSDT" = some ("ETH", "USDT") := by decide
  constructor
  · norm_num [compute_symbol_trade_stats, h1, replayFold, sortTrades, insertLE,
      initState, applyTrade]
  · norm_num [replayFold, sortTrades, insertLE, initState, applyTrade]

/-- Claim C3, counterexample: a record with `quantity = 0`, `free = 5`,
`locked = 0` contributes 5 (not 0, as "first field present" semantics
would demand) to its asset's total, because the Python `or` chain skips
falsy values. -/
theorem claim_C3_counterexample :
    pyAmount ⟨some "X", some 0, some 5, none, 0⟩ ≠ 0
    ∧ aggregate_positions [[⟨some "X", some 0, some 5, none, 0⟩]] = [("X", 5)] := by
  have hX : ("X" : String) ≠ "" := by decide
  constructor
  · norm_num [pyAmount, truthyOr]
  · norm_num [aggregate_positions, aggEntry, pyAmount, truthyOr, pyGetD, pyGet, setKey,
      hX, List.filter_cons, decide_eq_true_eq]

/-- Claim C3, amended: the primary amount is the first present AND
nonzero (Python-truthy) field among `quantity`, `free`, `amount`, so a
record with `quantity = 0` and `free = 5` (and `locked = 0`) contributes
5 to its asset's total. -/
theorem claim_C3 :
    (∀ f l : ℚ, pyAmount ⟨some "X", some 0, some f, none, l⟩
        = (if f = 0 then 0 else f) + l)
    ∧ aggregate_positions [[⟨some "X", some 0, some 5, none, 0⟩]] = [("X", 5)] := by
  have hX : ("X" : String) ≠ "" := by decide
  constructor
  · intro f l
    simp [pyAmount, truthyOr]
  · norm_num [aggregate_positions, aggEntry, pyAmount, truthyOr, pyGetD, pyGet, setKey,
      hX, List.filter_cons, decide_eq_true_eq]

/-- Claim C4: `split_symbol` splits at the first suffix in
`QUOTE_ASSETS` order that the uppercased symbol ends with, and fails
exactly when no listed suffix matches; `split_symbol("ETHUSDT") =
("ETH", "USDT")` and `split_symbol("unknownpair")` raises. -/
theorem claim_C4 :
    split_symbol "ETHUSDT" = some ("ETH", "USDT")
    ∧ split_symbol "unknownpair" = none
    ∧ (∀ s : String, split_symbol s
        = (QUOTE_ASSETS.find? (fun q => endsW (pyUpper s) q)).map
            (fun q => (dropR (pyUpper s) q.data.length, q)))
    ∧ (∀ s : String, split_symbol s = none
        ↔ ∀ q ∈ QUOTE_ASSETS, endsW (pyUpper s) q = false) := by
  refine ⟨by decide, by decide, fun s => splitLoop_eq_find (pyUpper s) QUOTE_ASSETS, fun s => ?_⟩
  rw [split_symbol, splitLoop_eq_find (pyUpper s) QUOTE_ASSETS]
  simp [List.find?_eq_none]

/-- Claim C7: an asset-quantity pair returned by `aggregate_positions`
always has a strictly positive quantity: non-positive totals are
filtered out. -/
theorem claim_C7 (sources : List (List BalanceEntry)) (a : String) (q : ℚ)
    (h : (a, q) ∈ aggregate_positions sources) : 0 < q := by
  have := (List.mem_filter.mp h).2
  exact of_decide_eq_true this

/-- Claim C7 witness: a concrete source list whose one surviving entry
has quantity 4 > 0. -/
theorem claim_C7_witness :
    ("Y", (4 : ℚ)) ∈ aggregate_positions [[⟨some "Y", some 3, none, none, 1⟩]]
    ∧ (0 : ℚ) < 4 := by
  have hY : ("Y" : String) ≠ "" := by decide
  have hmem : aggregate_positions [[⟨some "Y", some 3, none, none, 1⟩]] = [("Y", 4)] := by
    norm_num [aggregate_positions, aggEntry, pyAmount, truthyOr, pyGetD, pyGet, setKey,
      hY, List.filter_cons, decide_eq_true_eq]
  have hm : ("Y", (4 : ℚ)) ∈ aggregate_positions [[⟨some "Y", some 3, none, none, 1⟩]] := by
    rw [hmem]; exact List.mem_singleton.mpr rfl
  exact ⟨hm, claim_C7 [[⟨some "Y", some 3, none, none, 1⟩]] "Y" 4 hm⟩

theorem appendIfLow_append (mk : String → ℚ → ℚ → AlertMsg) (asset : String) (price : ℚ)
    (o : Option ℚ) (acc : List AlertMsg) :
    appendIfLow mk asset price o acc = acc ++ appendIfLow mk asset price o [] := by
  cases o with
  | none => simp [appendIfLow]
  | some v => by_cases h : v ≠ 0 ∧ price ≤ v <;> simp [appendIfLow, h]

theorem appendIfHigh_append (mk : String → ℚ → ℚ → AlertMsg) (asset : String) (price : ℚ)
    (o : Option ℚ) (acc : List AlertMsg) :
    appendIfHigh mk asset price o acc = acc ++ appendIfHigh mk asset price o [] := by
  cases o with
  | none => simp [appendIfHigh]
  | some v => by_cases h : v ≠ 0 ∧ v ≤ price <;> simp [appendIfHigh, h]

theorem evalRow_append (strategies : List (String × Strategy)) (acc : List AlertMsg)
    (row : SymbolPosition) :
    evalRow strategies acc row = acc ++ rowMsgs strategies row := by
  cases h : pyGet strategies (pyUpper row.asset) with
  | none => simp [evalRow, rowMsgs, h]
  | some st =>
      simp only [evalRow, rowMsgs, h]
      rw [appendIfLow_append _ _ _ _ acc,
        appendIfLow_append _ _ _ st.low_buy_2,
        appendIfHigh_append _ _ _ st.high_sell_1,
        appendIfHigh_append _ _ _ st.high_sell_2]
      simp

theorem foldl_evalRow_join (strategies : List (String × Strategy)) :
    ∀ (rows : List SymbolPosition) (acc : List AlertMsg),
      rows.foldl (evalRow strategies) acc
        = acc ++ (rows.map (rowMsgs strategies)).flatten
  | [], acc => by simp
  | row :: rest, acc => by
      simp only [List.foldl_cons, List.map_cons, List.flatten_cons,
        foldl_evalRow_join strategies rest, evalRow_append]
      simp

/-- Claim C8: alerts are emitted in row order and, within a row, in the
field order `low_buy_1, low_buy_2, high_sell_1, high_sell_2`; each
threshold fires independently exactly when present, nonzero, and its
comparison holds, so a row at price 100 with `low_buy_1 = 120` and
`high_sell_1 = 90` emits both messages. -/
theorem claim_C8 :
    (∀ (rows : List SymbolPosition) (strategies : List (String × Strategy)),
        evaluate_alerts rows strategies = (rows.map (rowMsgs strategies)).flatten)
    ∧ (∀ (mk : String → ℚ → ℚ → AlertMsg) (asset : String) (price v : ℚ),
        appendIfLow mk asset price (some v) []
          = if v ≠ 0 ∧ price ≤ v then [mk asset price v] else [])
    ∧ (∀ (mk : String → ℚ → ℚ → AlertMsg) (asset : String) (price v : ℚ),
        appendIfHigh mk asset price (some v) []
          = if v ≠ 0 ∧ v ≤ price then [mk asset price v] else [])
    ∧ evaluate_alerts [⟨"BTC", 1, 0, 0, 100, 100, 0, 0, 0⟩]
        [("BTC", ⟨some 120, none, some 90, none⟩)]
        = [.lowBuy1 "BTC" 100 120, .highSell1 "BTC" 100 90] := by
  refine ⟨fun rows strategies => foldl_evalRow_join strategies rows [],
    fun mk asset price v => by simp [appendIfLow],
    fun mk asset price v => by simp [appendIfHigh], ?_⟩
  have h1 : pyUpper "BTC" = "BTC" := by decide
  norm_num [evaluate_alerts, evalRow, h1, pyGet, appendIfLow, appendIfHigh]

theorem scanKeys_eq_none (asset : String) :
    ∀ pm : List (String × ℚ), (∀ p ∈ pm, startsW p.1 asset = false) →
      scanKeys pm asset = none
  | [], _ => rfl
  | (sym, v) :: rest, h => by
      have hs := h (sym, v) (List.mem_cons_self _ _)
      simp only [scanKeys, hs, Bool.false_eq_true, if_false]
      exact scanKeys_eq_none asset rest fun p hp => h p (List.mem_cons_of_mem _ hp)

theorem match_symbol_eq_none (pm : List (String × ℚ)) (quote asset : String)
    (hpref : pyGet pm (asset ++ quote) = none)
    (hscan : ∀ p ∈ pm, startsW p.1 asset = false) :
    match_symbol pm quote asset = none := by
  simp [match_symbol, hpref, scanKeys_eq_none asset pm hscan]

theorem buildLoop_skip (pm : List (String × ℚ)) (tl : List (String × List Trade))
    (quote asset : String) (qty : ℚ) (hnone : match_symbol pm quote asset = none) :
    ∀ (h1 h2 : List (String × ℚ)) (rows : List SymbolPosition) (ti tv rt : ℚ),
      buildLoop pm tl quote (h1 ++ (asset, qty) :: h2) rows ti tv rt
        = buildLoop pm tl quote (h1 ++ h2) rows ti tv rt
  | [], h2, rows, ti, tv, rt => by
      simp only [List.nil_append, buildLoop, hnone]
  | (a, q) :: rest, h2, rows, ti, tv, rt => by
      simp only [List.cons_append, buildLoop]
      cases hm : match_symbol pm quote a with
      | none =>
          simp only [hm]
          exact buildLoop_skip pm tl quote asset qty hnone rest h2 rows ti tv rt
      | some symbol =>
          simp only [hm]
          cases hc : compute_symbol_trade_stats symbol (pyGetD tl symbol []) with
          | none => simp only [hc]
          | some triple =>
              obtain ⟨avg, inv0, rl⟩ := triple
              simp only [hc]
              exact buildLoop_skip pm tl quote asset qty hnone rest h2 _ _ _ _

/-- Claim C9: a held asset whose preferred pair is absent from the price
map and for which no price-map key starts with the asset code is skipped
entirely by `build_portfolio_rows`: the result is exactly the result
without that asset, so it yields no row, no summary contribution, and no
error. -/
theorem claim_C9 (pm : List (String × ℚ)) (tl : List (String × List Trade))
    (quote asset : String) (qty : ℚ) (h1 h2 : List (String × ℚ))
    (hpref : pyGet pm (asset ++ quote) = none)
    (hscan : ∀ p ∈ pm, startsW p.1 asset = false) :
    build_portfolio_rows (h1 ++ (asset, qty) :: h2) pm tl quote
      = build_portfolio_rows (h1 ++ h2) pm tl quote :=
  buildLoop_skip pm tl quote asset qty (match_symbol_eq_none pm quote asset hpref hscan)
    h1 h2 [] 0 0 0

/-- Claim C9 witness: DOGE cannot be resolved against a price map
holding only BTCUSDT, so building with it equals building without it. -/
theorem claim_C9_witness :
    build_portfolio_rows ([] ++ ("DOGE", 2) :: []) [("BTCUSDT", 1)] [] "USDT"
      = build_portfolio_rows ([] ++ []) [("BTCUSDT", 1)] [] "USDT" :=
  claim_C9 [("BTCUSDT", 1)] [] "USDT" "DOGE" 2 [] [] (by decide) (by decide)

theorem sum_unrealized_eq : ∀ l : List SymbolPosition,
    (∀ r ∈ l, r.unrealized_pnl = r.current_value - r.invested) →
    (l.map SymbolPosition.unrealized_pnl).sum
      = (l.map SymbolPosition.current_value).sum - (l.map SymbolPosition.invested).sum
  | [], _ => by simp
  | r :: rest, h => by
      have hr := h r (List.mem_cons_self _ _)
      have ih := sum_unrealized_eq rest fun x hx => h x (List.mem_cons_of_mem _ hx)
      simp only [List.map_cons, List.sum_cons, hr, ih]
      ring

theorem buildLoop_sums (pm : List (String × ℚ)) (tl : List (String × List Trade))
    (quote : String) :
    ∀ (hold : List (String × ℚ)) (rows : List SymbolPosition) (ti tv rt : ℚ)
      (rowsF : List SymbolPosition) (s : PortfolioSummary),
      buildLoop pm tl quote hold rows ti tv rt = some (rowsF, s) →
      ∃ nw : List SymbolPosition, rowsF = rows ++ nw
        ∧ s.total_invested = ti + (nw.map SymbolPosition.invested).sum
        ∧ s.total_value = tv + (nw.map SymbolPosition.current_value).sum
        ∧ s.realized_pnl = rt + (nw.map SymbolPosition.realized_pnl).sum
        ∧ s.net_unrealized = s.total_value - s.total_invested
        ∧ ∀ r ∈ nw, r.unrealized_pnl = r.current_value - r.invested
  | [], rows, ti, tv, rt, rowsF, s => by
      intro h
      simp only [buildLoop, Option.some.injEq, Prod.mk.injEq] at h
      obtain ⟨h1, h2⟩ := h
      subst h1
      refine ⟨[], by simp, ?_, ?_, ?_, ?_, by simp⟩ <;> rw [← h2] <;> simp
  | (a, q) :: rest, rows, ti, tv, rt, rowsF, s => by
      intro h
      simp only [buildLoop] at h
      cases hm : match_symbol pm quote a with
      | none =>
          simp only [hm] at h
          exact buildLoop_sums pm tl quote rest rows ti tv rt rowsF s h
      | some symbol =>
          simp only [hm] at h
          cases hc : compute_symbol_trade_stats symbol (pyGetD tl symbol []) with
          | none => simp only [hc] at h; exact Option.noConfusion h
          | some triple =>
              obtain ⟨avg, inv0, rl⟩ := triple
              simp only [hc] at h
              obtain ⟨nw, hrows, hti, htv, hrt, hnet, hun⟩ :=
                buildLoop_sums pm tl quote rest _ _ _ _ rowsF s h
              refine ⟨mkRow a q (pyGetD pm symbol 0) avg inv0 rl :: nw, ?_, ?_, ?_, ?_,
                hnet, ?_⟩
              · rw [hrows]; simp
              · rw [hti]; simp only [List.map_cons, List.sum_cons]; ring
              · rw [htv]; simp only [List.map_cons, List.sum_cons]; ring
              · rw [hrt]; simp only [List.map_cons, List.sum_cons]; ring
              · intro r hr
                rcases List.mem_cons.mp hr with hr | hr
                · subst hr; simp [mkRow]
                · exact hun r hr

/-- Claim C5: when replay yields `invested = 0` and `average_price = 0`
(in particular for an empty trade list), the row falls back to
`invested = qty * current_price` with `average_buy_price = 0`, hence
`unrealized_pnl = 0` and `roi_pct = 0`; holdings `{BTC: 1}` with price
map `{BTCUSDT: 50000}` and no trades yield exactly one such row. -/
theorem claim_C5 :
    (∀ (asset : String) (qty p realized : ℚ),
        mkRow asset qty p 0 0 realized
          = { asset := asset, quantity := qty, average_buy_price := 0, invested := qty * p,
              current_price := p, current_value := qty * p, unrealized_pnl := 0,
              roi_pct := 0, realized_pnl := realized })
    ∧ build_portfolio_rows [("BTC", 1)] [("BTCUSDT", 50000)] [] "USDT"
        = some ([⟨"BTC", 1, 0, 50000, 50000, 50000, 0, 0, 0⟩], ⟨50000, 50000, 0, 0⟩) := by
  constructor
  · intro asset qty p realized
    simp [mkRow]
  · have happ : "BTC" ++ "USDT" = "BTCUSDT" := by decide
    norm_num [build_portfolio_rows, buildLoop, match_symbol, pyGet, pyGetD,
      compute_symbol_trade_stats, mkRow, happ]

/-- Claim C6: the summary returned by `build_portfolio_rows` equals the
sums over the returned rows, and its net unrealized P&L equals both
`total_value - total_invested` and the sum of the rows' unrealized P&L. -/
theorem claim_C6 (holdings pm : List (String × ℚ)) (tl : List (String × List Trade))
    (quote : String) (rows : List SymbolPosition) (s : PortfolioSummary)
    (h : build_portfolio_rows holdings pm tl quote = some (rows, s)) :
    s.total_invested = (rows.map SymbolPosition.invested).sum
    ∧ s.total_value = (rows.map SymbolPosition.current_value).sum
    ∧ s.realized_pnl = (rows.map SymbolPosition.realized_pnl).sum
    ∧ s.net_unrealized = s.total_value - s.total_invested
    ∧ s.net_unrealized = (rows.map SymbolPosition.unrealized_pnl).sum := by
  obtain ⟨nw, hrows, hti, htv, hrt, hnet, hun⟩ :=
    buildLoop_sums pm tl quote holdings [] 0 0 0 rows s h
  simp only [List.nil_append] at hrows
  subst hrows
  have h1 : s.total_invested = (rows.map SymbolPosition.invested).sum := by simpa using hti
  have h2 : s.total_value = (rows.map SymbolPosition.current_value).sum := by simpa using htv
  have h3 : s.realized_pnl = (rows.map SymbolPosition.realized_pnl).sum := by simpa using hrt
  exact ⟨h1, h2, h3, hnet, by rw [hnet, h1, h2, sum_unrealized_eq rows hun]⟩

/-- Claim C6 witness: the summary of the one-row BTC portfolio equals
the sums over its single row. -/
theorem claim_C6_witness :
    (⟨50000, 50000, 0, 0⟩ : PortfolioSummary).total_invested
        = (([⟨"BTC", 1, 0, 50000, 50000, 50000, 0, 0, 0⟩] : List SymbolPosition).map
            SymbolPosition.invested).sum
    ∧ (⟨50000, 50000, 0, 0⟩ : PortfolioSummary).total_value
        = (([⟨"BTC", 1, 0, 50000, 50000, 50000, 0, 0, 0⟩] : List SymbolPosition).map
            SymbolPosition.current_value).sum
    ∧ (⟨50000, 50000, 0, 0⟩ : PortfolioSummary).realized_pnl
        = (([⟨"BTC", 1, 0, 50000, 50000, 50000, 0, 0, 0⟩] : List SymbolPosition).map
            SymbolPosition.realized_pnl).sum
    ∧ (⟨50000, 50000, 0, 0⟩ : PortfolioSummary).net_unrealized
        = (⟨50000, 50000, 0, 0⟩ : PortfolioSummary).total_value
            - (⟨50000, 50000, 0, 0⟩ : PortfolioSummary).total_invested
    ∧ (⟨50000, 50000, 0, 0⟩ : PortfolioSummary).net_unrealized
        = (([⟨"BTC", 1, 0, 50000, 50000, 50000, 0, 0, 0⟩] : List SymbolPosition).map
            SymbolPosition.unrealized_pnl).sum := by
  have hb : build_portfolio_rows [("BTC", 1)] [("BTCUSDT", 50000)] [] "USDT"
      = some ([⟨"BTC", 1, 0, 50000, 50000, 50000, 0, 0, 0⟩], ⟨50000, 50000, 0, 0⟩) := by
    have happ : "BTC" ++ "USDT" = "BTCUSDT" := by decide
    norm_num [build_portfolio_rows, buildLoop, match_symbol, pyGet, pyGetD,
      compute_symbol_trade_stats, mkRow, happ]
  exact claim_C6 [("BTC", 1)] [("BTCUSDT", 50000)] [] "USDT" _ _ hb

theorem mem_insertLE (t a : Trade) : ∀ l : List Trade, a ∈ insertLE t l ↔ a = t ∨ a ∈ l
  | [] => by simp [insertLE]
  | h :: rest => by
      by_cases hle : h.time ≤ t.time
      · simp only [insertLE, if_pos hle, List.mem_cons, mem_insertLE t a rest]
        tauto
      · simp only [insertLE, if_neg hle, List.mem_cons]

theorem mem_sortTrades_aux (x : Trade) :
    ∀ (l acc : List Trade),
      x ∈ l.foldl (fun acc t => insertLE t acc) acc ↔ x ∈ acc ∨ x ∈ l
  | [], acc => by simp
  | t :: rest, acc => by
      simp only [List.foldl_cons, mem_sortTrades_aux x rest (insertLE t acc),
        mem_insertLE, List.mem_cons]
      tauto

theorem mem_sortTrades (x : Trade) (ts : List Trade) : x ∈ sortTrades ts ↔ x ∈ ts := by
  simp [sortTrades, mem_sortTrades_aux x ts []]

theorem applyTrade_nonneg (base quote : String) (st : ReplayState) (t : Trade)
    (hq : 0 ≤ st.position_qty) (hc : 0 ≤ st.position_cost)
    (hqty : 0 < t.qty) (hprice : 0 < t.price) (hcomm : 0 ≤ t.commission)
    (hfee : t.isBuyer = true → t.commissionAsset = base → t.commission ≤ t.qty) :
    0 ≤ (applyTrade base quote st t).position_qty
    ∧ 0 ≤ (applyTrade base quote st t).position_cost := by
  by_cases hb : t.isBuyer = true
  · simp only [applyTrade, hb, if_true]
    constructor
    · by_cases hca : t.commissionAsset = base
      · have := hfee hb hca
        simp only [if_pos hca]
        linarith
      · simp only [if_neg hca]
        linarith
    · have hpp : 0 < t.qty * t.price := mul_pos hqty hprice
      by_cases hcq : t.commissionAsset = quote
      · simp only [if_pos hcq]
        linarith
      · simp only [if_neg hcq]
        linarith
  · rw [Bool.not_eq_true] at hb
    simp only [applyTrade, hb, Bool.false_eq_true, if_false]
    by_cases hs : min t.qty st.position_qty ≤ 0
    · simp only [if_pos hs]
      exact ⟨hq, hc⟩
    · simp only [if_neg hs]
      push_neg at hs
      have hqpos : 0 < st.position_qty := lt_of_lt_of_le hs (min_le_right _ _)
      rw [if_neg hqpos.ne']
      constructor
      · show 0 ≤ st.position_qty - min t.qty st.position_qty
        linarith [min_le_right t.qty st.position_qty]
      · show 0 ≤ st.position_cost
            - st.position_cost / st.position_qty * min t.qty st.position_qty
        have havg : 0 ≤ st.position_cost / st.position_qty := div_nonneg hc hqpos.le
        have hmul : st.position_cost / st.position_qty * min t.qty st.position_qty
            ≤ st.position_cost / st.position_qty * st.position_qty :=
          mul_le_mul_of_nonneg_left (min_le_right _ _) havg
        rw [div_mul_cancel₀ _ hqpos.ne'] at hmul
        linarith

theorem foldl_applyTrade_nonneg (base quote : String) :
    ∀ (l : List Trade) (st : ReplayState),
      0 ≤ st.position_qty → 0 ≤ st.position_cost →
      (∀ t ∈ l, 0 < t.qty ∧ 0 < t.price ∧ 0 ≤ t.commission ∧
        (t.isBuyer = true → t.commissionAsset = base → t.commission ≤ t.qty)) →
      0 ≤ (List.foldl (applyTrade base quote) st l).position_qty
      ∧ 0 ≤ (List.foldl (applyTrade base quote) st l).position_cost
  | [], _, hq, hc, _ => ⟨hq, hc⟩
  | t :: rest, st, hq, hc, hv => by
      obtain ⟨h1, h2, h3, h4⟩ := hv t (List.mem_cons_self _ _)
      obtain ⟨hq2, hc2⟩ := applyTrade_nonneg base quote st t hq hc h1 h2 h3 h4
      exact foldl_applyTrade_nonneg base quote rest _ hq2 hc2
        (fun x hx => hv x (List.mem_cons_of_mem _ hx))

/-- Claim C2, counterexample: the stated preconditions (qty > 0,
price > 0, commission ≥ 0) do NOT keep the position non-negative: a buy
of qty 1 whose commission of 2 is paid in the base asset drives
`position_qty` to -1 during replay. -/
theorem claim_C2_counterexample :
    (0 < (⟨1, 100, 0, true, 2, "ETH"⟩ : Trade).qty
      ∧ 0 < (⟨1, 100, 0, true, 2, "ETH"⟩ : Trade).price
      ∧ 0 ≤ (⟨1, 100, 0, true, 2, "ETH"⟩ : Trade).commission)
    ∧ (replayFold "ETH" "USDT" [⟨1, 100, 0, true, 2, "ETH"⟩]).position_qty < 0 := by
  refine ⟨⟨by norm_num, by norm_num, by norm_num⟩, ?_⟩
  norm_num [replayFold, sortTrades, insertLE, initState, applyTrade]

/-- Claim C2, amended: if additionally every buy paying its commission
in the base asset has commission ≤ qty, then `position_qty` and
`position_cost` stay non-negative throughout replay; unconditionally, a
sell at `position_qty = 0` is a no-op (zero realized P&L contribution),
and a sell whose qty meets or exceeds the position is clamped, emptying
the position exactly. -/
theorem claim_C2 (base quote : String) (trades : List Trade)
    (hv : ∀ t ∈ trades, 0 < t.qty ∧ 0 < t.price ∧ 0 ≤ t.commission ∧
      (t.isBuyer = true → t.commissionAsset = base → t.commission ≤ t.qty)) :
    (∀ pre suf : List Trade, sortTrades trades = pre ++ suf →
        0 ≤ (List.foldl (applyTrade base quote) initState pre).position_qty
        ∧ 0 ≤ (List.foldl (applyTrade base quote) initState pre).position_cost)
    ∧ (∀ (st : ReplayState) (t : Trade), t.isBuyer = false → st.position_qty = 0 →
        applyTrade base quote st t = st)
    ∧ (∀ (st : ReplayState) (t : Trade), t.isBuyer = false → 0 < st.position_qty →
        st.position_qty ≤ t.qty → (applyTrade base quote st t).position_qty = 0) := by
  refine ⟨fun pre suf hps => ?_, fun st t hb h0 => ?_, fun st t hb hpos hle => ?_⟩
  · refine foldl_applyTrade_nonneg base quote pre initState (le_refl 0) (le_refl 0) ?_
    intro t ht
    apply hv
    rw [← mem_sortTrades t trades, hps]
    exact List.mem_append.mpr (Or.inl ht)
  · have hmin : min t.qty st.position_qty ≤ 0 := by
      rw [h0]
      exact min_le_right _ _
    simp only [applyTrade, hb, Bool.false_eq_true, if_false, if_pos hmin]
  · have hmin : min t.qty st.position_qty = st.position_qty := min_eq_right hle
    have hns : ¬ st.position_qty ≤ 0 := not_le.mpr hpos
    simp only [applyTrade, hb, Bool.false_eq_true, if_false, hmin, if_neg hns]
    simp

/-- Claim C2 witness: a concrete valid buy keeps the position
non-negative, and a concrete sell against an empty position is a no-op. -/
theorem claim_C2_witness :
    0 ≤ (List.foldl (applyTrade "ETH" "USDT") initState
          [⟨2, 100, 1, true, 0, ""⟩]).position_qty
    ∧ applyTrade "ETH" "USDT" initState ⟨1, 150, 2, false, 0, ""⟩ = initState := by
  have hv : ∀ t ∈ [(⟨2, 100, 1, true, 0, ""⟩ : Trade)], 0 < t.qty ∧ 0 < t.price ∧
      0 ≤ t.commission ∧
      (t.isBuyer = true → t.commissionAsset = "ETH" → t.commission ≤ t.qty) := by
    intro t ht
    rw [List.mem_singleton] at ht
    subst ht
    exact ⟨by norm_num, by norm_num, le_refl 0, fun _ _ => by norm_num⟩
  have main := claim_C2 "ETH" "USDT" [⟨2, 100, 1, true, 0, ""⟩] hv
  refine ⟨(main.1 [⟨2, 100, 1, true, 0, ""⟩] [] ?_).1, main.2.1 initState _ rfl rfl⟩
  simp [sortTrades, insertLE]

/-- Claim C10: a sell executed against a positive position that leaves
the position positive does not change the average cost
`position_cost / position_qty`. -/
theorem claim_C10 (base quote : String) (st : ReplayState) (t : Trade)
    (hsell : t.isBuyer = false) (hpos : 0 < st.position_qty)
    (hleft : 0 < (applyTrade base quote st t).position_qty) :
    (applyTrade base quote st t).position_cost / (applyTrade base quote st t).position_qty
      = st.position_cost / st.position_qty := by
  simp only [applyTrade, hsell, Bool.false_eq_true, if_false] at hleft ⊢
  by_cases hs : min t.qty st.position_qty ≤ 0
  · rw [if_pos hs]
  · rw [if_neg hs] at hleft ⊢
    rw [if_neg hpos.ne'] at hleft ⊢
    have hq : st.position_qty ≠ 0 := hpos.ne'
    have hleft2 : 0 < st.position_qty - min t.qty st.position_qty := hleft
    have hqs : st.position_qty - min t.qty st.position_qty ≠ 0 := ne_of_gt hleft2
    show (st.position_cost - st.position_cost / st.position_qty * min t.qty st.position_qty)
        / (st.position_qty - min t.qty st.position_qty) = st.position_cost / st.position_qty
    field_simp
    ring

/-- Claim C10 witness: selling 1 out of a position of 2 units costing
200 leaves the average cost at 100. -/
theorem claim_C10_witness :
    (applyTrade "ETH" "USDT" ⟨2, 200, 0⟩ ⟨1, 150, 5, false, 0, ""⟩).position_cost
        / (applyTrade "ETH" "USDT" ⟨2, 200, 0⟩ ⟨1, 150, 5, false, 0, ""⟩).position_qty
      = (⟨2, 200, 0⟩ : ReplayState).position_cost
        / (⟨2, 200, 0⟩ : ReplayState).position_qty :=
  claim_C10 "ETH" "USDT" ⟨2, 200, 0⟩ ⟨1, 150, 5, false, 0, ""⟩ rfl (by norm_num)
    (by norm_num [applyTrade])
